import Mathlib

/-!
Verification development for the `find` Go package (github.com/emar-kar/find).

The package is embedded shallowly:

* Go strings are modelled as `List Char` (`Str`); the `strings` /
  `path/filepath` library functions used by the package are ported
  one-for-one below (`hasPrefix`, `trimPrefix`, `indexOfSub`, `splitGo`,
  `replaceAll`, `toLowerStr`, `joinPath`).
* The template engine of the package (type `Template`, functions
  `NewTemplate`, `parse`, `Template.Match`, `NewTemplates`, `MatchAny`,
  `MatchAll`) is translated definition by definition.
* The traversal engine (`Find` / `find` in find.go together with the
  `options` record of options.go) is modelled over an in-memory directory
  tree (`Entry` / `Listing` / `EntryList`).  The outcome of
  `resolvePath` + `os.ReadDir` on a directory is part of the tree
  (`Listing.fail` carries the error of a directory that cannot be
  resolved or listed).  The model runs on one goroutine with a context
  that is never cancelled, and printing/logging side effects are not
  modelled (they do not influence the returned values).  In addition to
  the Go result list, the model returns the list of full paths of the
  entries processed by the traversal loop, in order, as instrumentation.
-/

/-- Go strings, modelled as lists of characters. -/
abbrev Str := List Char

/-- String representation of the path separator, `os.PathSeparator` on a
Unix system (part_001). -/
def pathSeparator : Str := ['/']

/-- Models `strings.HasPrefix s pre`. -/
def hasPrefix (s pre : Str) : Bool := pre.isPrefixOf s

/-- Models `strings.HasSuffix s suf`. -/
def hasSuffix (s suf : Str) : Bool := suf.isSuffixOf s

/-- Models `strings.TrimPrefix s pre`. -/
def trimPrefix (s pre : Str) : Str :=
  if hasPrefix s pre then s.drop pre.length else s

/-- Models `strings.TrimSuffix s suf`. -/
def trimSuffix (s suf : Str) : Str :=
  if hasSuffix s suf then s.take (s.length - suf.length) else s

/-- Models `strings.Index s pat`: position of the first occurrence of
`pat` inside `s`, `none` when there is no occurrence. -/
def indexOfSub : Str → Str → Option Nat
  | [], pat => if pat.isEmpty then some 0 else none
  | c :: rest, pat =>
    if pat.isPrefixOf (c :: rest) then some 0
    else (indexOfSub rest pat).map (· + 1)

/-- Models `strings.Contains s pat`. -/
def containsSub (s pat : Str) : Bool := (indexOfSub s pat).isSome

/-- Fuel-driven worker for `splitGo`; each step consumes at least one
character of `s` when `sep` is non-empty, so `s.length + 1` fuel is
always enough. -/
def splitFuel : Nat → Str → Str → List Str
  | 0, s, _ => [s]
  | fuel + 1, s, sep =>
    match indexOfSub s sep with
    | none => [s]
    | some i => s.take i :: splitFuel fuel (s.drop (i + sep.length)) sep

/-- Models `strings.Split s sep` for a non-empty separator, the only way
the package calls it (`Template.Match` splits at `t.base`, which is
checked to be non-empty first). -/
def splitGo (s sep : Str) : List Str := splitFuel (s.length + 1) s sep

/-- Worker for `replaceAll` on a non-empty pattern. -/
def replaceFuel : Nat → Str → Str → Str → Str
  | 0, s, _, _ => s
  | fuel + 1, s, old, new =>
    match indexOfSub s old with
    | none => s
    | some i =>
      s.take i ++ new ++ replaceFuel fuel (s.drop (i + old.length)) old new

/-- Models the empty-pattern case of `strings.Replace`: the replacement
is inserted before every character and at the end. -/
def interleave (new : Str) : Str → Str
  | [] => new
  | c :: rest => new ++ c :: interleave new rest

/-- Models `strings.ReplaceAll s old new`. -/
def replaceAll (s old new : Str) : Str :=
  if old.isEmpty then interleave new s
  else replaceFuel (s.length + 1) s old new

/-- Models `strings.ToLower` on the ASCII range (the package only ever
feeds it filter strings and file names; Unicode special casings are out
of scope of the model). -/
def toLowerStr (s : Str) : Str := s.map Char.toLower

/-- Models `filepath.Join resPath name` for a clean directory path and a
plain entry name, the only way the traversal calls it. -/
def joinPath (p n : Str) : Str := p ++ pathSeparator ++ n

mutual
/-- Translation of type `Template` of part_001.  The Go fields `and`,
`or` and `not` are called `andT`, `orT` and `neg` here (`rec`-like field
names clash with Lean's generated recursors). -/
inductive Template where
  | mk (andT : OTemplate) (orT : OTemplate) (base : Str)
      (neg : Bool) (strictLeft : Bool) (strictRight : Bool)
deriving DecidableEq

/-- Explicit copy of `Option Template` (a nil-able Go pointer field):
Lean 4.14 does structural recursion over this mutual package but not
over the nested `Option`. -/
inductive OTemplate where
  | none
  | some (t : Template)
deriving DecidableEq
end

/-- Projection of the Go field `and`. -/
def Template.and : Template → OTemplate
  | .mk a _ _ _ _ _ => a

/-- Projection of the Go field `or`. -/
def Template.or : Template → OTemplate
  | .mk _ o _ _ _ _ => o

/-- Projection of the Go field `base`. -/
def Template.base : Template → Str
  | .mk _ _ b _ _ _ => b

/-- Projection of the Go field `not`. -/
def Template.neg : Template → Bool
  | .mk _ _ _ n _ _ => n

/-- Projection of the Go field `strictLeft`. -/
def Template.strictLeft : Template → Bool
  | .mk _ _ _ _ sl _ => sl

/-- Projection of the Go field `strictRight`. -/
def Template.strictRight : Template → Bool
  | .mk _ _ _ _ _ sr => sr

/-- Functional update of the Go field `and` (used to state that a
continuation is never consulted). -/
def Template.setAnd : Template → OTemplate → Template
  | .mk _ o b n sl sr, a => .mk a o b n sl sr

/-- Functional update of the Go field `or`. -/
def Template.setOr : Template → OTemplate → Template
  | .mk a _ b n sl sr, o => .mk a o b n sl sr

/-- Translation of `parse` (part_001, lines 68-91): leaf fields of a
single filter with no `&`/`|` operator. -/
def parse (str : Str) : Template :=
  let tnot := hasPrefix str ['!']
  let str1 := trimPrefix str ['!']
  if str1 = ['*'] then
    .mk .none .none str1 tnot false false
  else
    let strictLeft := !(hasPrefix str1 ['*'])
    let str2 := trimPrefix str1 ['*']
    let strictRight := !(hasSuffix str2 ['*'])
    .mk .none .none (trimSuffix str2 ['*']) tnot strictLeft strictRight

/-- The callback of `strings.IndexFunc` inside `NewTemplate`. -/
def opRune (r : Char) : Bool :=
  if r = '&' || r = '|' then true else false

/-- Models `strings.IndexFunc str opRune`. -/
def indexFunc : Str → Option Nat
  | [] => none
  | c :: rest =>
    if opRune c then some 0 else (indexFunc rest).map (· + 1)

/-- Fuel-driven worker for `NewTemplate`; the tail of the filter after
the first operator is strictly shorter, so `str.length` fuel is always
enough. -/
def NewTemplateFuel : Nat → Str → Template
  | 0, str => parse str
  | fuel + 1, str =>
    match indexFunc str with
    | Option.none => parse str
    | Option.some sep =>
      if str.getD sep ' ' = '&' then
        (parse (str.take sep)).setAnd (.some (NewTemplateFuel fuel (str.drop (sep + 1))))
      else
        (parse (str.take sep)).setOr (.some (NewTemplateFuel fuel (str.drop (sep + 1))))

/-- Translation of `NewTemplate` (part_001, lines 40-65): split the
filter at the first `&` or `|`, parse the head as a leaf and attach the
recursively parsed tail as the `and` or `or` continuation. -/
def NewTemplate (str : Str) : Template := NewTemplateFuel str.length str

/-- Direct (leaf) part of `Template.Match` (part_001, lines 94-127),
before the `or`/`and` continuations are consulted. -/
def leafMatch (tbase : Str) (tnot strictLeft strictRight : Bool) (str : Str) : Bool :=
  if tbase = [] then false
  else if tbase = ['*'] then true
  else if containsSub str tbase then
    let sub := splitGo str tbase
    let left := sub.length == 1 || (sub.getD 0 []).isEmpty ||
      hasSuffix (sub.getD 0 []) pathSeparator
    let right := sub.length == 1 || (sub.getD 1 []).isEmpty ||
      hasPrefix (sub.getD 1 []) pathSeparator
    let m :=
      if strictLeft && strictRight then left && right
      else if strictLeft then left
      else if strictRight then right
      else true
    if tnot then !m else m
  else tnot

mutual
/-- Translation of `Template.Match` (part_001, lines 94-142). -/
def Template.Match : Template → Str → Bool
  | .mk a o tbase tnot sl sr, str =>
    let direct := leafMatch tbase tnot sl sr str
    let postOr := OTemplate.matchOr o str direct
    OTemplate.matchAnd a str postOr

/-- The step `if t.or != nil && !match { match = t.or.Match(str) }`. -/
def OTemplate.matchOr : OTemplate → Str → Bool → Bool
  | .some o, str, m => if !m then Template.Match o str else m
  | .none, _, m => m

/-- The step `if t.and != nil { if !match { return match }; match = t.and.Match(str) }`. -/
def OTemplate.matchAnd : OTemplate → Str → Bool → Bool
  | .some a, str, m => if !m then m else Template.Match a str
  | .none, _, m => m
end

/-- Translation of type `Templates` (part_001). -/
abbrev Templates := List Template

/-- Translation of `NewTemplates` (part_001, lines 147-154). -/
def NewTemplates (t : List Str) : Templates := t.map NewTemplate

/-- Translation of `MatchAny` (options.go, lines 128-137). -/
def MatchAny : Templates → Str → Bool
  | [], _ => false
  | t :: rest, str => if Template.Match t str then true else MatchAny rest str

/-- Translation of `MatchAll` (options.go, lines 139-148). -/
def MatchAll : Templates → Str → Bool
  | [], _ => true
  | t :: rest, str => if !(Template.Match t str) then false else MatchAll rest str

/-- Constant `File` (options.go). -/
def File : Nat := 0

/-- Constant `Folder` (options.go). -/
def Folder : Nat := 1

/-- Constant `Both` (options.go). -/
def Both : Nat := 2

/-- Translation of the `options` record (options.go, lines 37-51).  The
Go field `rec` is called `rec'` (Lean reserves `.rec`); `log` and
`output` only control printing side effects, which the pure model does
not perform. -/
structure Opts where
  matchFunc : Templates → Str → Bool
  caseFunc : Str → Str
  max : Int
  orig : Str
  resOrig : Str
  fType : Nat
  rec' : Bool
  name : Bool
  relative : Bool
  full : Bool
  skip : Bool
  log : Bool
  output : Bool

/-- The default `caseFunc` (options.go, line 12). -/
def sensitive : Str → Str := fun s => s

/-- Translation of `defaultOptions` (options.go, lines 54-61). -/
def defaultOptions : Opts where
  matchFunc := MatchAny
  caseFunc := sensitive
  max := -1
  orig := []
  resOrig := []
  fType := Both
  rec' := false
  name := false
  relative := false
  full := false
  skip := false
  log := false
  output := false

/-- Option `Only` (options.go). -/
def Only (t : Nat) : Opts → Opts := fun o => { o with fType := t }

/-- Option `Recursively` (options.go). -/
def Recursively : Opts → Opts := fun o => { o with rec' := true }

/-- Option `Name` (options.go). -/
def Name : Opts → Opts := fun o => { o with name := true }

/-- Option `Strict` (options.go). -/
def Strict : Opts → Opts := fun o => { o with matchFunc := MatchAll }

/-- Option `MatchFullPath` (options.go). -/
def MatchFullPath : Opts → Opts := fun o => { o with full := true }

/-- Option `RelativePaths` (options.go). -/
def RelativePaths : Opts → Opts := fun o => { o with relative := true }

/-- Option `WithErrorsSkip` (options.go). -/
def WithErrorsSkip : Opts → Opts := fun o => { o with skip := true }

/-- Option `WithErrorsLog` (options.go). -/
def WithErrorsLog : Opts → Opts := fun o => { o with log := true }

/-- Option `WithOutput` (options.go). -/
def WithOutput : Opts → Opts := fun o => { o with output := true }

/-- Option `Max` of options.go, lines 117-121 (the Go name collides
with Lean's `Max` class). -/
def Max' (i : Int) : Opts → Opts := fun o => { o with max := i }

/-- Option `Insensitive` (options.go, lines 123-126). -/
def Insensitive : Opts → Opts := fun o => { o with caseFunc := toLowerStr }

mutual
/-- An entry of an in-memory directory tree, as seen through
`os.DirEntry` (`Name()` and `IsDir()`). -/
inductive Entry where
  | file (name : Str)
  | dir (name : Str) (listing : Listing)

/-- Outcome of `resolvePath` followed by `os.ReadDir` on a directory:
`fail e` models a directory whose path cannot be resolved or listed
(carrying the error), `ok` a successful listing. -/
inductive Listing where
  | fail (e : Str)
  | ok (entries : EntryList)

/-- Explicit copy of `List Entry` (see the note at `OTemplate`). -/
inductive EntryList where
  | nil
  | cons (e : Entry) (rest : EntryList)
end

/-- The `f.Name()` accessor. -/
def Entry.name : Entry → Str
  | .file n => n
  | .dir n _ => n

/-- The `f.IsDir()` accessor. -/
def Entry.isDir : Entry → Bool
  | .file _ => false
  | .dir _ _ => true

/-- Concatenation of entry lists (used only to state theorems about a
listing that contains a distinguished entry somewhere in the middle). -/
def EntryList.append : EntryList → EntryList → EntryList
  | .nil, ys => ys
  | .cons x xs, ys => .cons x (EntryList.append xs ys)

/-- The entry-acceptance condition of the traversal loop (find.go,
lines 270-274): the type filter conjoined with the match test on the
case-folded name or full path. -/
def entryMatches (opt : Opts) (ts : Templates) (nm : Str) (isDir : Bool) (p : Str) : Bool :=
  (opt.fType == Both || (opt.fType == File && !isDir) ||
      (opt.fType == Folder && isDir)) &&
  ((opt.full && opt.matchFunc ts (opt.caseFunc p)) ||
      (!opt.full && opt.matchFunc ts (opt.caseFunc nm)))

/-- The `found` value of a matching entry (find.go, lines 275-282). -/
def foundValue (opt : Opts) (nm p : Str) : Str :=
  if opt.name then nm
  else if opt.relative then replaceAll p opt.resOrig opt.orig
  else p

/-- Result of one traversal call: the Go result list paired with the
instrumentation trace (full paths of the entries processed by the loop,
in order), or the Go error. -/
abbrev FindRes := Except Str (List Str × List Str)

mutual
/-- Translation of the loop of `find` (find.go, lines 259-312) over the
listing of the directory `resPath`.  `res` is the accumulated result
slice of the current call, `vis` the instrumentation trace. -/
def findEntries (opt : Opts) (ts : Templates) (resPath : Str) (res vis : List Str) :
    EntryList → FindRes
  | .nil => .ok (res, vis)
  | .cons f rest =>
    let p := joinPath resPath f.name
    let vis1 := vis ++ [p]
    let matched := entryMatches opt ts f.name f.isDir p
    let res1 := if matched then res ++ [foundValue opt f.name p] else res
    if matched && (opt.max != -1 && decide ((res1.length : Int) ≥ opt.max)) then
      .ok (res1, vis1)
    else
      match f with
      | .file _ => findEntries opt ts resPath res1 vis1 rest
      | .dir _ listing =>
        if opt.rec' then
          match findDir opt ts p listing with
          | .error e => .error e
          | .ok pr =>
            if opt.max != -1 && decide (((res1.length + pr.1.length : Nat) : Int) ≥ opt.max) then
              .ok (res1 ++ pr.1.take (opt.max - (res1.length : Int)).toNat, vis1 ++ pr.2)
            else findEntries opt ts resPath (res1 ++ pr.1) (vis1 ++ pr.2) rest
        else findEntries opt ts resPath res1 vis1 rest

/-- Translation of the head of `find` (find.go, lines 231-257): resolve
and list the directory `p`; on failure return `(nil, nil)` under the
skip policy and the error otherwise; on success run the loop with a
fresh empty result slice. -/
def findDir (opt : Opts) (ts : Templates) (p : Str) : Listing → FindRes
  | .fail e => if opt.skip then .ok ([], []) else .error e
  | .ok entries => findEntries opt ts p [] [] entries
end

/-- The generic template argument of `Find`: a string or a slice of
strings. -/
inductive TInput where
  | str (s : Str)
  | list (l : List Str)

/-- Template construction inside `Find` (find.go, lines 205-220): each
filter string is passed through `opt.caseFunc` before `NewTemplate`
parses it. -/
def buildTemplates (opt : Opts) : TInput → Templates
  | .str s => [NewTemplate (opt.caseFunc s)]
  | .list l => NewTemplates (l.map opt.caseFunc)

/-- A root for one `Find` call: the original `where` argument, the
outcome of the primary `resolvePath(where)` (find.go, lines 186-192),
and the listing of the resolved root as seen by the recursive `find`. -/
structure FileSys where
  origPath : Str
  rootRes : Except Str Str
  rootListing : Listing

/-- The options record as `Find` assembles it (find.go, lines 194-203):
defaults, then `orig`/`resOrig`, then the caller's option functions. -/
def findOpts (fs : FileSys) (resPath : Str) (optFns : List (Opts → Opts)) : Opts :=
  optFns.foldl (fun o fn => fn o)
    { defaultOptions with orig := fs.origPath, resOrig := resPath }

/-- Translation of `Find` (find.go, lines 181-223): the primary root
resolution error is returned before the options are even built, then
templates are constructed and the recursive `find` runs on the resolved
root. -/
def FindGo (fs : FileSys) (t : TInput) (optFns : List (Opts → Opts)) : FindRes :=
  match fs.rootRes with
  | .error err => .error err
  | .ok resPath =>
    let opt := findOpts fs resPath optFns
    let ts := buildTemplates opt t
    findDir opt ts resPath fs.rootListing

mutual
/-- Count of the entries of a listing that the traversal accepts
(type filter and templates), including, when `rec'` is set, the entries
of nested directories.  This is the `K` of the result-cap property; it
is not part of the Go code. -/
def countEntries (opt : Opts) (ts : Templates) (resPath : Str) : EntryList → Nat
  | .nil => 0
  | .cons f rest =>
    let p := joinPath resPath f.name
    (if entryMatches opt ts f.name f.isDir p then 1 else 0) +
      (match f with
       | .file _ => 0
       | .dir _ listing => if opt.rec' then countDir opt ts p listing else 0) +
      countEntries opt ts resPath rest

/-- Directory part of `countEntries`. -/
def countDir (opt : Opts) (ts : Templates) (p : Str) : Listing → Nat
  | .fail _ => 0
  | .ok entries => countEntries opt ts p entries
end

mutual
/-- No listing anywhere in the list fails. -/
def EntryList.readable : EntryList → Bool
  | .nil => true
  | .cons f rest => Entry.readable f && EntryList.readable rest

/-- No listing anywhere below the entry fails. -/
def Entry.readable : Entry → Bool
  | .file _ => true
  | .dir _ listing => Listing.readable listing

/-- The listing and everything below it succeeds. -/
def Listing.readable : Listing → Bool
  | .fail _ => false
  | .ok entries => EntryList.readable entries
end

/-- One step of the traversal loop: the processing of a single entry,
with the continuation on the remaining entries of the listing made
explicit.  `findEntries` on a non-empty listing is this step applied to
its own recursion (theorem `findEntries_cons`); the step is introduced
only to reason about one loop iteration at a time. -/
def stepCons (opt : Opts) (ts : Templates) (resPath : Str) (f : Entry)
    (k : List Str → List Str → FindRes) (res vis : List Str) : FindRes :=
  let p := joinPath resPath f.name
  let vis1 := vis ++ [p]
  let matched := entryMatches opt ts f.name f.isDir p
  let res1 := if matched then res ++ [foundValue opt f.name p] else res
  if matched && (opt.max != -1 && decide ((res1.length : Int) ≥ opt.max)) then
    .ok (res1, vis1)
  else
    match f with
    | .file _ => k res1 vis1
    | .dir _ listing =>
      if opt.rec' then
        match findDir opt ts p listing with
        | .error e => .error e
        | .ok pr =>
          if opt.max != -1 && decide (((res1.length + pr.1.length : Nat) : Int) ≥ opt.max) then
            .ok (res1 ++ pr.1.take (opt.max - (res1.length : Int)).toNat, vis1 ++ pr.2)
          else k (res1 ++ pr.1) (vis1 ++ pr.2)
      else k res1 vis1

/-! Concrete instances used by counterexamples and witnesses. -/

/-- Options of a capped recursive search (`Recursively`, `Max(2)`). -/
def capOpts : Opts := Max' 2 (Recursively defaultOptions)

/-- Template set of the capped search: names starting with segment `m`. -/
def capTS : Templates := [NewTemplate ['m', '*']]

/-- Tree with three matching files, one of them behind a sibling
directory: `m1`, `d/m2`, `d/m3`. -/
def capTree : EntryList :=
  .cons (.file ['m', '1'])
    (.cons (.dir ['d'] (.ok (.cons (.file ['m', '2']) (.cons (.file ['m', '3']) .nil))))
      .nil)

/-- Root whose directory holds entries `a`, `A` and `B`, for the
case-insensitivity claims; the original path `r` resolves to `/r`. -/
def insFS : FileSys :=
  ⟨['r'], .ok ['/', 'r'],
    .ok (.cons (.file ['a']) (.cons (.file ['A']) (.cons (.file ['B']) .nil)))⟩

/-- Root `r` resolving to `/r` whose directory holds a subdirectory
also called `r` with a file `f`, so the full path `/r/r/f` contains the
resolved root `/r` twice. -/
def relFS : FileSys :=
  ⟨['r'], .ok ['/', 'r'],
    .ok (.cons (.dir ['r'] (.ok (.cons (.file ['f']) .nil))) .nil)⟩

/-! Helper lemmas. -/

/-- Negating a leaf inverts its direct result whenever the base literal
is neither empty nor the universal wildcard. -/
theorem leafMatch_neg (b : Str) (sl sr : Bool) (s : Str)
    (hb1 : b ≠ []) (hb2 : b ≠ ['*']) :
    leafMatch b true sl sr s = !(leafMatch b false sl sr s) := by
  unfold leafMatch
  simp only [if_neg hb1, if_neg hb2]
  cases h : containsSub s b <;> simp [h]

/-- The AND continuation step maps a false intermediate result to false
for every continuation. -/
theorem matchAnd_false (a : OTemplate) (s : Str) :
    OTemplate.matchAnd a s false = false := by
  cases a <;> simp [OTemplate.matchAnd]

/-! Claim theorems. -/

/-- C9: on an empty template set, `MatchAny` rejects every candidate and
`MatchAll` accepts every candidate. -/
theorem claim_C9 (s : Str) : MatchAny [] s = false ∧ MatchAll [] s = true :=
  ⟨rfl, rfl⟩

/-- C7: the template parsed from `x*` matches `x/y` (the occurrence of
`x` starts at a path-segment boundary) and rejects `ax/y` (the
occurrence starts mid-segment). -/
theorem claim_C7 :
    Template.Match (NewTemplate ['x', '*']) ['x', '/', 'y'] = true ∧
    Template.Match (NewTemplate ['x', '*']) ['a', 'x', '/', 'y'] = false := by
  decide

/-- C6: the filters `*` and `!*` match every candidate (negation is not
applied to the universal wildcard), while the filters `!` and the empty
string match no candidate. -/
theorem claim_C6 (s : Str) :
    Template.Match (NewTemplate ['*']) s = true ∧
    Template.Match (NewTemplate ['!', '*']) s = true ∧
    Template.Match (NewTemplate ['!']) s = false ∧
    Template.Match (NewTemplate []) s = false := by
  refine ⟨?_, ?_, ?_, ?_⟩ <;>
    simp [Template.Match, OTemplate.matchOr, OTemplate.matchAnd, leafMatch,
      NewTemplate, NewTemplateFuel, parse, indexFunc, opRune, hasPrefix,
      trimPrefix, hasSuffix, trimSuffix, containsSub]

/-- C2 counterexample: the claim states that the template parsed from
`!x` matches every string different from `x`, but the candidate `a/x`
is different from `x` and is rejected: the occurrence of `x` in it sits
at a path-segment boundary, so the positive anchored test succeeds and
the negation flips it to false. -/
theorem claim_C2_cex :
    (['a', '/', 'x'] : Str) ≠ ['x'] ∧
    Template.Match (NewTemplate ['!', 'x']) ['a', '/', 'x'] = false := by
  decide

/-- C2 (amended): the template parsed from `!x` is the pointwise
negation of the template parsed from `x` — it matches exactly the
candidates in which `x` does not occur as a complete path segment — and
in particular it rejects the candidate `x` itself. -/
theorem claim_C2 (s : Str) :
    Template.Match (NewTemplate ['!', 'x']) s
      = !(Template.Match (NewTemplate ['x']) s) ∧
    Template.Match (NewTemplate ['!', 'x']) ['x'] = false := by
  constructor
  · show Template.Match (.mk .none .none ['x'] true true true) s
        = !(Template.Match (.mk .none .none ['x'] false true true) s)
    simp only [Template.Match, OTemplate.matchOr, OTemplate.matchAnd]
    exact leafMatch_neg ['x'] true true s (by decide) (by decide)
  · decide

/-- C3 counterexample: with `Insensitive` enabled, `Find` constructs the
template of the filter string `A` from the lowercased string, so the
stored literal is `a`, not `A`: case-folding IS baked into the Template
at construction time, contradicting the claim. -/
theorem claim_C3_cex :
    buildTemplates (findOpts insFS ['/', 'r'] [Insensitive]) (.str ['A'])
      = [Template.mk .none .none ['a'] false true true] ∧
    (Template.mk (.none) (.none) ['a'] false true true).base ≠ ['A'] := by
  decide

/-- C3 (amended): under `Insensitive`, lowercasing is applied both to
the candidate string at match time and to the filter string at template
construction time: the filters `A` and `a` produce the same template,
and the entries `a` and `A` (but not `B`) of the root of `insFS` are
returned for the filter `A`. -/
theorem claim_C3 :
    buildTemplates (findOpts insFS ['/', 'r'] [Insensitive]) (.str ['A'])
      = buildTemplates (findOpts insFS ['/', 'r'] [Insensitive]) (.str ['a']) ∧
    FindGo insFS (.str ['A']) [Insensitive]
      = .ok ([['/', 'r', '/', 'a'], ['/', 'r', '/', 'A']],
             [['/', 'r', '/', 'a'], ['/', 'r', '/', 'A'], ['/', 'r', '/', 'B']]) :=
  ⟨by decide, rfl⟩

/-- C5: when the direct leaf result is false and an `or` continuation
exists, the result of the `or` continuation becomes the intermediate
result that is handed to the AND step, and if that intermediate result
is false the call returns false no matter what the `and` continuation
is (it is never consulted). -/
theorem claim_C5 (t o : Template) (s : Str)
    (ho : t.or = OTemplate.some o)
    (hd : leafMatch t.base t.neg t.strictLeft t.strictRight s = false) :
    Template.Match t s = OTemplate.matchAnd t.and s (Template.Match o s) ∧
    (Template.Match o s = false →
      ∀ a : OTemplate, Template.Match (t.setAnd a) s = false) := by
  obtain ⟨ta, tor, tb, tn, tsl, tsr⟩ := t
  simp only [Template.or] at ho
  subst ho
  simp only [Template.base, Template.neg, Template.strictLeft, Template.strictRight] at hd
  constructor
  · simp [Template.Match, Template.and, OTemplate.matchOr, hd]
  · intro hor a
    simp [Template.setAnd, Template.Match, OTemplate.matchOr, hd, hor, matchAnd_false]

/-- C5 witness: the filter `q|x` on the candidate `x`. -/
theorem claim_C5_witness :
    Template.Match (NewTemplate ['q', '|', 'x']) ['x']
      = OTemplate.matchAnd (NewTemplate ['q', '|', 'x']).and ['x']
          (Template.Match (NewTemplate ['x']) ['x']) :=
  (claim_C5 (NewTemplate ['q', '|', 'x']) (NewTemplate ['x']) ['x']
    (by decide) (by decide)).1

/-- A position returned by `indexFunc` lies inside the string. -/
theorem indexFunc_lt : ∀ (s : Str) (i : Nat), indexFunc s = some i → i < s.length := by
  intro s
  induction s with
  | nil => intro i h; simp [indexFunc] at h
  | cons c rest ih =>
    intro i h
    by_cases hc : opRune c = true
    · simp [indexFunc, hc] at h
      simp only [List.length_cons]
      omega
    · simp only [indexFunc, hc, Bool.false_eq_true, if_false, Option.map_eq_some'] at h
      obtain ⟨j, hj, rfl⟩ := h
      have := ih j hj
      simp only [List.length_cons]
      omega

/-- On an operator-free string, `indexFunc` finds nothing. -/
theorem indexFunc_none (s : Str) (h : ∀ x ∈ s, opRune x = false) :
    indexFunc s = none := by
  induction s with
  | nil => rfl
  | cons c rest ih =>
    have hc : opRune c = false := h c (by simp)
    simp [indexFunc, hc, ih (fun y hy => h y (by simp [hy]))]

/-- On an operator-free prefix followed by an operator, `indexFunc`
finds exactly the position of that operator. -/
theorem indexFunc_append (s1 : Str) (c : Char) (s2 : Str)
    (h1 : ∀ x ∈ s1, opRune x = false) (hc : opRune c = true) :
    indexFunc (s1 ++ c :: s2) = some s1.length := by
  induction s1 with
  | nil => simp [indexFunc, hc]
  | cons x xs ih =>
    have hx : opRune x = false := h1 x (by simp)
    simp [indexFunc, hx, ih (fun y hy => h1 y (by simp [hy]))]

/-- Reading the list at the position right after a prefix yields the
element placed there. -/
theorem getD_append_cons (s1 : Str) (c : Char) (s2 : Str) :
    (s1 ++ c :: s2).getD s1.length ' ' = c := by
  induction s1 with
  | nil => rfl
  | cons x xs ih => simpa using ih

/-- On a string with no operator, any amount of fuel yields the leaf. -/
theorem newTemplateFuel_noop (fuel : Nat) (s : Str) (h : indexFunc s = none) :
    NewTemplateFuel fuel s = parse s := by
  cases fuel with
  | zero => rfl
  | succ g => simp [NewTemplateFuel, h]

/-- The fuel of `NewTemplateFuel` is irrelevant once it dominates the
length of the string. -/
theorem newTemplateFuel_congr :
    ∀ (f1 f2 : Nat) (s : Str), s.length ≤ f1 → s.length ≤ f2 →
      NewTemplateFuel f1 s = NewTemplateFuel f2 s := by
  intro f1
  induction f1 using Nat.strong_induction_on with
  | _ f1 ih =>
    intro f2 s h1 h2
    match f1, f2 with
    | 0, 0 => rfl
    | 0, g2 + 1 =>
      have hs : s = [] := List.eq_nil_of_length_eq_zero (Nat.le_zero.mp h1)
      subst hs
      simp [NewTemplateFuel, indexFunc]
    | g1 + 1, 0 =>
      have hs : s = [] := List.eq_nil_of_length_eq_zero (Nat.le_zero.mp h2)
      subst hs
      simp [NewTemplateFuel, indexFunc]
    | g1 + 1, g2 + 1 =>
      cases h : indexFunc s with
      | none => simp only [NewTemplateFuel, h]
      | some sep =>
        have hlt := indexFunc_lt s sep h
        have hd : (s.drop (sep + 1)).length ≤ g1 := by
          simp only [List.length_drop]; omega
        have hd2 : (s.drop (sep + 1)).length ≤ g2 := by
          simp only [List.length_drop]; omega
        simp only [NewTemplateFuel, h]
        rw [ih g1 (by omega) g2 (s.drop (sep + 1)) hd hd2]

/-- The fuel wrapper computes `NewTemplate` whenever the fuel dominates
the string length. -/
theorem newTemplateFuel_eq (fuel : Nat) (s : Str) (h : s.length ≤ fuel) :
    NewTemplateFuel fuel s = NewTemplate s :=
  newTemplateFuel_congr fuel s.length s h (Nat.le_refl _)

/-- C4: a filter whose first operator is `&` (respectively `|`) parses
into the leaf of the operator-free prefix with the recursively parsed
remainder attached as the `and` (respectively `or`) continuation, and an
operator-free filter parses into a single leaf. -/
theorem claim_C4 (s1 s2 : Str) (h1 : ∀ c ∈ s1, opRune c = false) :
    NewTemplate (s1 ++ '&' :: s2) = (parse s1).setAnd (.some (NewTemplate s2)) ∧
    NewTemplate (s1 ++ '|' :: s2) = (parse s1).setOr (.some (NewTemplate s2)) ∧
    (∀ s : Str, (∀ c ∈ s, opRune c = false) → NewTemplate s = parse s) := by
  refine ⟨?_, ?_, ?_⟩
  · have hlen : (s1 ++ '&' :: s2).length = (s1.length + s2.length) + 1 := by
      simp [List.length_append]
      omega
    have hdrop : (s1 ++ '&' :: s2).drop (s1.length + 1) = s2 := by
      rw [← List.drop_drop, List.drop_left, List.drop_one, List.tail_cons]
    rw [NewTemplate, hlen]
    simp only [NewTemplateFuel, indexFunc_append s1 '&' s2 h1 (by decide),
      getD_append_cons, List.take_left, hdrop, if_pos]
    rw [newTemplateFuel_eq _ s2 (by omega)]
  · have hlen : (s1 ++ '|' :: s2).length = (s1.length + s2.length) + 1 := by
      simp [List.length_append]
      omega
    have hdrop : (s1 ++ '|' :: s2).drop (s1.length + 1) = s2 := by
      rw [← List.drop_drop, List.drop_left, List.drop_one, List.tail_cons]
    rw [NewTemplate, hlen]
    simp only [NewTemplateFuel, indexFunc_append s1 '|' s2 h1 (by decide),
      getD_append_cons, List.take_left, hdrop,
      if_neg (by decide : ¬ (('|' : Char) = '&'))]
    rw [newTemplateFuel_eq _ s2 (by omega)]
  · intro s hs
    rw [NewTemplate, newTemplateFuel_noop _ _ (indexFunc_none s hs)]

/-- C4 witness: the filters `a&b`, `a|b` and `z`. -/
theorem claim_C4_witness :
    NewTemplate ['a', '&', 'b'] = (parse ['a']).setAnd (.some (NewTemplate ['b'])) ∧
    NewTemplate ['a', '|', 'b'] = (parse ['a']).setOr (.some (NewTemplate ['b'])) ∧
    NewTemplate ['z'] = parse ['z'] :=
  ⟨(claim_C4 ['a'] ['b'] (by decide)).1, (claim_C4 ['a'] ['b'] (by decide)).2.1,
   (claim_C4 ['a'] ['b'] (by decide)).2.2 ['z'] (by decide)⟩

/-- Unfolding of the traversal loop on a non-empty listing in terms of
the single-entry step. -/
theorem findEntries_cons (opt : Opts) (ts : Templates) (resPath : Str)
    (f : Entry) (rest : EntryList) (res vis : List Str) :
    findEntries opt ts resPath res vis (.cons f rest)
      = stepCons opt ts resPath f
          (fun r v => findEntries opt ts resPath r v rest) res vis := by
  cases f <;> rfl

/-- C10: under relative-path output the emitted value is
`strings.ReplaceAll(p, resOrig, orig)` — every occurrence of the
resolved root inside the full path is rewritten, not only the leading
one.  First part: a matching file is emitted as `replaceAll` of its full
path.  Second part: on `relFS` (root `r` resolved to `/r`, containing
`r/f`), the interior occurrence of `/r` in `/r/r` and `/r/r/f` is also
rewritten, producing `rr` and `rr/f` instead of `r/r` and `r/r/f`. -/
theorem claim_C10 :
    (∀ (opt : Opts) (ts : Templates) (resPath nm : Str),
        opt.name = false → opt.relative = true →
        entryMatches opt ts nm false (joinPath resPath nm) = true →
        findEntries opt ts resPath [] [] (.cons (.file nm) .nil)
          = .ok ([replaceAll (joinPath resPath nm) opt.resOrig opt.orig],
                 [joinPath resPath nm])) ∧
    FindGo relFS (.str ['*']) [Recursively, RelativePaths]
      = .ok ([['r', 'r'], ['r', 'r', '/', 'f']],
             [['/', 'r', '/', 'r'], ['/', 'r', '/', 'r', '/', 'f']]) := by
  constructor
  · intro opt ts resPath nm hn hr hm
    rw [findEntries_cons]
    simp [stepCons, Entry.name, Entry.isDir, foundValue, findEntries, hn, hr, hm]
  · rfl

/-- Processing one entry is insensitive to the tail of the listing as
long as the continuations agree. -/
theorem findEntries_congr (opt : Opts) (ts : Templates) (resPath : Str)
    (rest1 rest2 : EntryList)
    (h : ∀ res vis, findEntries opt ts resPath res vis rest1
        = findEntries opt ts resPath res vis rest2) (f : Entry) :
    ∀ res vis, findEntries opt ts resPath res vis (.cons f rest1)
      = findEntries opt ts resPath res vis (.cons f rest2) := by
  intro res vis
  rw [findEntries_cons, findEntries_cons,
    show (fun r v => findEntries opt ts resPath r v rest1)
        = fun r v => findEntries opt ts resPath r v rest2 from
      funext fun r => funext fun v => h r v]

/-- Replacing an unreadable directory with an empty readable one
anywhere at the top level of a listing does not change the traversal
under the skip policy: the failing directory is skipped with no
results. -/
theorem findEntries_prune (opt : Opts) (ts : Templates) (resPath nm e : Str)
    (ys : EntryList) (hskip : opt.skip = true) :
    ∀ (xs : EntryList) (res vis : List Str),
      findEntries opt ts resPath res vis
          (xs.append (.cons (.dir nm (.fail e)) ys))
        = findEntries opt ts resPath res vis
            (xs.append (.cons (.dir nm (.ok .nil)) ys))
  | .nil, res, vis => by
    simp only [EntryList.append]
    rw [findEntries_cons, findEntries_cons]
    simp only [stepCons, Entry.name, Entry.isDir]
    rw [show findDir opt ts (joinPath resPath nm) (.fail e)
          = findDir opt ts (joinPath resPath nm) (.ok .nil) from by
        simp [findDir, findEntries, hskip]]
  | .cons x xs, res, vis => by
    simp only [EntryList.append]
    rw [findEntries_cons, findEntries_cons,
      show (fun r v => findEntries opt ts resPath r v
              (xs.append (.cons (.dir nm (.fail e)) ys)))
          = fun r v => findEntries opt ts resPath r v
              (xs.append (.cons (.dir nm (.ok .nil)) ys)) from
        funext fun r => funext fun v =>
          findEntries_prune opt ts resPath nm e ys hskip xs r v]

/-- C8: the primary resolution error of the root is returned by `Find`
before the options (in particular the skip policy) are even applied,
while the failure to resolve or list a directory below the root under
the skip policy is suppressed: the traversal behaves exactly as if that
directory were empty, so the affected subtree contributes no results
and no error. -/
theorem claim_C8 :
    (∀ (fs : FileSys) (t : TInput) (optFns : List (Opts → Opts)) (e : Str),
        fs.rootRes = .error e → FindGo fs t optFns = .error e) ∧
    (∀ (opt : Opts) (ts : Templates) (resPath nm e : Str) (xs ys : EntryList),
        opt.skip = true →
        ∀ res vis : List Str,
          findEntries opt ts resPath res vis
              (xs.append (.cons (.dir nm (.fail e)) ys))
            = findEntries opt ts resPath res vis
                (xs.append (.cons (.dir nm (.ok .nil)) ys))) := by
  constructor
  · intro fs t optFns e h
    unfold FindGo
    rw [h]
  · intro opt ts resPath nm e xs ys hskip res vis
    exact findEntries_prune opt ts resPath nm e ys hskip xs res vis

/-- C8 witness: a root that fails to resolve under the skip policy, and
an unreadable directory below a readable root under the skip policy. -/
theorem claim_C8_witness :
    FindGo ⟨['r'], .error ['E'], .ok .nil⟩ (.str ['*']) [WithErrorsSkip] = .error ['E'] ∧
    findEntries (WithErrorsSkip (Recursively defaultOptions)) [NewTemplate ['*']]
        ['/', 'r'] [] [] (EntryList.append .nil (.cons (.dir ['d'] (.fail ['E'])) .nil))
      = findEntries (WithErrorsSkip (Recursively defaultOptions)) [NewTemplate ['*']]
          ['/', 'r'] [] [] (EntryList.append .nil (.cons (.dir ['d'] (.ok .nil)) .nil)) :=
  ⟨claim_C8.1 _ (.str ['*']) [WithErrorsSkip] ['E'] rfl,
   claim_C8.2 (WithErrorsSkip (Recursively defaultOptions)) [NewTemplate ['*']]
     ['/', 'r'] ['d'] ['E'] .nil .nil rfl [] []⟩

/-- C10 witness: a single matching file under relative-path output. -/
theorem claim_C10_witness :
    findEntries (RelativePaths defaultOptions) [NewTemplate ['*']] ['/', 'r'] [] []
        (.cons (.file ['f']) .nil)
      = .ok ([replaceAll (joinPath ['/', 'r'] ['f'])
                (RelativePaths defaultOptions).resOrig (RelativePaths defaultOptions).orig],
             [joinPath ['/', 'r'] ['f']]) :=
  claim_C10.1 (RelativePaths defaultOptions) [NewTemplate ['*']] ['/', 'r'] ['f']
    rfl rfl (by decide)

mutual
/-- Core cap lemma: on a readable listing, with a positive cap `N` and
fewer than `N` results accumulated so far, the traversal loop succeeds
and ends with `min (res.length + K) N` results, where `K` is the number
of matching entries of the subtree. -/
theorem capEntries (opt : Opts) (ts : Templates) (N : Nat) (hN : 0 < N)
    (hmax : opt.max = (N : Int)) :
    ∀ (es : EntryList) (resPath : Str) (res vis : List Str),
      EntryList.readable es = true → res.length < N →
      ∃ out : List Str × List Str,
        findEntries opt ts resPath res vis es = .ok out ∧
        out.1.length = min (res.length + countEntries opt ts resPath es) N
  | .nil => by
    intro resPath res vis hread hlt
    refine ⟨(res, vis), rfl, ?_⟩
    simp only [countEntries]
    omega
  | .cons (.file nm) rest => by
    intro resPath res vis hread hlt
    simp only [EntryList.readable, Entry.readable, Bool.true_and] at hread
    by_cases hm : entryMatches opt ts nm false (joinPath resPath nm) = true
    · by_cases hEq : res.length + 1 = N
      · have hd1 : (opt.max != -1) = true := by
          simp only [hmax, bne_iff_ne, ne_eq]
          omega
        have hd2 : decide
            (((res ++ [foundValue opt nm (joinPath resPath nm)]).length : Int) ≥ opt.max)
              = true := by
          simp only [decide_eq_true_eq, hmax, List.length_append, List.length_singleton]
          omega
        have hstep : findEntries opt ts resPath res vis (.cons (.file nm) rest)
            = .ok (res ++ [foundValue opt nm (joinPath resPath nm)],
                vis ++ [joinPath resPath nm]) := by
          rw [findEntries_cons]
          simp only [stepCons, Entry.name, Entry.isDir, hm, hd1, hd2, Bool.and_self,
            Bool.true_and, reduceIte]
        refine ⟨_, hstep, ?_⟩
        simp only [countEntries, Entry.name, Entry.isDir, hm, reduceIte,
          List.length_append, List.length_singleton]
        omega
      · have hd2 : decide
            (((res ++ [foundValue opt nm (joinPath resPath nm)]).length : Int) ≥ opt.max)
              = false := by
          simp only [decide_eq_false_iff_not, hmax, List.length_append, List.length_singleton]
          omega
        have hstep : findEntries opt ts resPath res vis (.cons (.file nm) rest)
            = findEntries opt ts resPath
                (res ++ [foundValue opt nm (joinPath resPath nm)])
                (vis ++ [joinPath resPath nm]) rest := by
          rw [findEntries_cons]
          simp only [stepCons, Entry.name, Entry.isDir, hm, hd2, Bool.and_false,
            Bool.true_and, Bool.false_eq_true, if_false, reduceIte]
        obtain ⟨out, hf, hl⟩ := capEntries opt ts N hN hmax rest resPath
          (res ++ [foundValue opt nm (joinPath resPath nm)])
          (vis ++ [joinPath resPath nm]) hread
          (by simp only [List.length_append, List.length_singleton]; omega)
        refine ⟨out, by rw [hstep]; exact hf, ?_⟩
        rw [hl]
        simp only [countEntries, Entry.name, Entry.isDir, hm, reduceIte,
          List.length_append, List.length_singleton]
        omega
    · rw [Bool.not_eq_true] at hm
      have hstep : findEntries opt ts resPath res vis (.cons (.file nm) rest)
          = findEntries opt ts resPath res (vis ++ [joinPath resPath nm]) rest := by
        rw [findEntries_cons]
        simp only [stepCons, Entry.name, Entry.isDir, hm, Bool.false_and,
          Bool.false_eq_true, if_false]
      obtain ⟨out, hf, hl⟩ := capEntries opt ts N hN hmax rest resPath res
        (vis ++ [joinPath resPath nm]) hread hlt
      refine ⟨out, by rw [hstep]; exact hf, ?_⟩
      rw [hl]
      simp only [countEntries, Entry.name, Entry.isDir, hm, Bool.false_eq_true, if_false]
      omega
  | .cons (.dir nm listing) rest => by
    intro resPath res vis hread hlt
    simp only [EntryList.readable, Entry.readable, Bool.and_eq_true] at hread
    obtain ⟨hreadL, hreadR⟩ := hread
    by_cases hm : entryMatches opt ts nm true (joinPath resPath nm) = true
    · by_cases hEq : res.length + 1 = N
      · have hd1 : (opt.max != -1) = true := by
          simp only [hmax, bne_iff_ne, ne_eq]
          omega
        have hd2 : decide
            (((res ++ [foundValue opt nm (joinPath resPath nm)]).length : Int) ≥ opt.max)
              = true := by
          simp only [decide_eq_true_eq, hmax, List.length_append, List.length_singleton]
          omega
        have hstep : findEntries opt ts resPath res vis (.cons (.dir nm listing) rest)
            = .ok (res ++ [foundValue opt nm (joinPath resPath nm)],
                vis ++ [joinPath resPath nm]) := by
          rw [findEntries_cons]
          simp only [stepCons, Entry.name, Entry.isDir, hm, hd1, hd2, Bool.and_self,
            Bool.true_and, reduceIte]
        refine ⟨_, hstep, ?_⟩
        simp only [countEntries, Entry.name, Entry.isDir, hm, reduceIte,
          List.length_append, List.length_singleton]
        omega
      · have hd2 : decide
            (((res ++ [foundValue opt nm (joinPath resPath nm)]).length : Int) ≥ opt.max)
              = false := by
          simp only [decide_eq_false_iff_not, hmax, List.length_append, List.length_singleton]
          omega
        by_cases hrec : opt.rec' = true
        · obtain ⟨dout, hdf, hdl⟩ := capDir opt ts N hN hmax listing (joinPath resPath nm) hreadL
          by_cases hcap2 : N ≤ res.length + 1 + dout.1.length
          · have hd3 : decide
                ((((res ++ [foundValue opt nm (joinPath resPath nm)]).length
                    + dout.1.length : Nat) : Int) ≥ opt.max) = true := by
              simp only [decide_eq_true_eq, hmax, List.length_append, List.length_singleton]
              omega
            have hd1 : (opt.max != -1) = true := by
              simp only [hmax, bne_iff_ne, ne_eq]
              omega
            have hstep : findEntries opt ts resPath res vis (.cons (.dir nm listing) rest)
                = .ok ((res ++ [foundValue opt nm (joinPath resPath nm)])
                      ++ dout.1.take
                        ((opt.max - (((res ++ [foundValue opt nm (joinPath resPath nm)]).length : Nat) : Int)).toNat),
                    (vis ++ [joinPath resPath nm]) ++ dout.2) := by
              rw [findEntries_cons]
              simp only [stepCons, Entry.name, Entry.isDir, hm, hd1, hd2, hd3, hrec,
                hdf, Bool.true_and, Bool.and_false, Bool.false_eq_true, if_false, reduceIte]
            have hk : ((opt.max
                - (((res ++ [foundValue opt nm (joinPath resPath nm)]).length : Nat) : Int)).toNat)
                  = N - (res.length + 1) := by
              simp only [hmax, List.length_append, List.length_singleton]
              omega
            refine ⟨_, hstep, ?_⟩
            simp only [countEntries, Entry.name, Entry.isDir, hm, hrec, reduceIte, hk,
              List.length_append, List.length_singleton, List.length_take]
            omega
          · have hd3 : decide
                ((((res ++ [foundValue opt nm (joinPath resPath nm)]).length
                    + dout.1.length : Nat) : Int) ≥ opt.max) = false := by
              simp only [decide_eq_false_iff_not, hmax, List.length_append, List.length_singleton]
              omega
            have hstep : findEntries opt ts resPath res vis (.cons (.dir nm listing) rest)
                = findEntries opt ts resPath
                    ((res ++ [foundValue opt nm (joinPath resPath nm)]) ++ dout.1)
                    ((vis ++ [joinPath resPath nm]) ++ dout.2) rest := by
              rw [findEntries_cons]
              simp only [stepCons, Entry.name, Entry.isDir, hm, hd2, hd3, hrec, hdf,
                Bool.true_and, Bool.and_false, Bool.false_eq_true, if_false, reduceIte]
            obtain ⟨out, hf, hl⟩ := capEntries opt ts N hN hmax rest resPath
              ((res ++ [foundValue opt nm (joinPath resPath nm)]) ++ dout.1)
              ((vis ++ [joinPath resPath nm]) ++ dout.2) hreadR
              (by simp only [List.length_append, List.length_singleton]; omega)
            refine ⟨out, by rw [hstep]; exact hf, ?_⟩
            rw [hl]
            simp only [countEntries, Entry.name, Entry.isDir, hm, hrec, reduceIte,
              List.length_append, List.length_singleton]
            omega
        · rw [Bool.not_eq_true] at hrec
          have hstep : findEntries opt ts resPath res vis (.cons (.dir nm listing) rest)
              = findEntries opt ts resPath
                  (res ++ [foundValue opt nm (joinPath resPath nm)])
                  (vis ++ [joinPath resPath nm]) rest := by
            rw [findEntries_cons]
            simp only [stepCons, Entry.name, Entry.isDir, hm, hd2, hrec, Bool.and_false,
              Bool.true_and, Bool.false_eq_true, if_false, reduceIte]
          obtain ⟨out, hf, hl⟩ := capEntries opt ts N hN hmax rest resPath
            (res ++ [foundValue opt nm (joinPath resPath nm)])
            (vis ++ [joinPath resPath nm]) hreadR
            (by simp only [List.length_append, List.length_singleton]; omega)
          refine ⟨out, by rw [hstep]; exact hf, ?_⟩
          rw [hl]
          simp only [countEntries, Entry.name, Entry.isDir, hm, hrec, reduceIte,
            Bool.false_eq_true, if_false, List.length_append, List.length_singleton]
          omega
    · rw [Bool.not_eq_true] at hm
      by_cases hrec : opt.rec' = true
      · obtain ⟨dout, hdf, hdl⟩ := capDir opt ts N hN hmax listing (joinPath resPath nm) hreadL
        by_cases hcap2 : N ≤ res.length + dout.1.length
        · have hd3 : decide (((res.length + dout.1.length : Nat) : Int) ≥ opt.max)
              = true := by
            simp only [decide_eq_true_eq, hmax]
            omega
          have hd1 : (opt.max != -1) = true := by
            simp only [hmax, bne_iff_ne, ne_eq]
            omega
          have hstep : findEntries opt ts resPath res vis (.cons (.dir nm listing) rest)
              = .ok (res ++ dout.1.take ((opt.max - ((res.length : Nat) : Int)).toNat),
                  (vis ++ [joinPath resPath nm]) ++ dout.2) := by
            rw [findEntries_cons]
            simp only [stepCons, Entry.name, Entry.isDir, hm, hd1, hd3, hrec, hdf,
              Bool.false_and, Bool.true_and, Bool.false_eq_true, if_false, reduceIte]
          have hk : ((opt.max - ((res.length : Nat) : Int)).toNat) = N - res.length := by
            simp only [hmax]
            omega
          refine ⟨_, hstep, ?_⟩
          simp only [countEntries, Entry.name, Entry.isDir, hm, hrec, reduceIte, hk,
            Bool.false_eq_true, if_false, List.length_append, List.length_take]
          omega
        · have hd3 : decide (((res.length + dout.1.length : Nat) : Int) ≥ opt.max)
              = false := by
            simp only [decide_eq_false_iff_not, hmax]
            omega
          have hstep : findEntries opt ts resPath res vis (.cons (.dir nm listing) rest)
              = findEntries opt ts resPath (res ++ dout.1)
                  ((vis ++ [joinPath resPath nm]) ++ dout.2) rest := by
            rw [findEntries_cons]
            simp only [stepCons, Entry.name, Entry.isDir, hm, hd3, hrec, hdf,
              Bool.false_and, Bool.and_false, Bool.true_and, Bool.false_eq_true,
              if_false, reduceIte]
          obtain ⟨out, hf, hl⟩ := capEntries opt ts N hN hmax rest resPath
            (res ++ dout.1) ((vis ++ [joinPath resPath nm]) ++ dout.2) hreadR
            (by simp only [List.length_append]; omega)
          refine ⟨out, by rw [hstep]; exact hf, ?_⟩
          rw [hl]
          simp only [countEntries, Entry.name, Entry.isDir, hm, hrec, reduceIte,
            Bool.false_eq_true, if_false, List.length_append]
          omega
      · rw [Bool.not_eq_true] at hrec
        have hstep : findEntries opt ts resPath res vis (.cons (.dir nm listing) rest)
            = findEntries opt ts resPath res (vis ++ [joinPath resPath nm]) rest := by
          rw [findEntries_cons]
          simp only [stepCons, Entry.name, Entry.isDir, hm, hrec, Bool.false_and,
            Bool.false_eq_true, if_false]
        obtain ⟨out, hf, hl⟩ := capEntries opt ts N hN hmax rest resPath res
          (vis ++ [joinPath resPath nm]) hreadR hlt
        refine ⟨out, by rw [hstep]; exact hf, ?_⟩
        rw [hl]
        simp only [countEntries, Entry.name, Entry.isDir, hm, hrec, Bool.false_eq_true,
          if_false]
        omega

/-- Directory part of the core cap lemma. -/
theorem capDir (opt : Opts) (ts : Templates) (N : Nat) (hN : 0 < N)
    (hmax : opt.max = (N : Int)) :
    ∀ (l : Listing) (p : Str), Listing.readable l = true →
      ∃ out : List Str × List Str,
        findDir opt ts p l = .ok out ∧
        out.1.length = min (countDir opt ts p l) N
  | .fail e => by
    intro p h
    simp [Listing.readable] at h
  | .ok es => by
    intro p h
    simp only [Listing.readable] at h
    obtain ⟨out, hf, hl⟩ := capEntries opt ts N hN hmax es p [] [] h (by simpa using hN)
    refine ⟨out, by simpa [findDir] using hf, ?_⟩
    rw [hl]
    simp [countDir]
end

/-- C1 counterexample: with cap `N = 2` on `capTree` (matches `m1`,
`d/m2`, `d/m3`), the call returns exactly the 2 results `m1` and `d/m2`,
but the instrumentation trace shows that the entry `d/m3` is still
visited after the second match `d/m2` has been emitted: the recursive
call into `d` counts its results from zero, so it keeps walking until
its own local count reaches the cap, and the parent then truncates.
This refutes the part of the claim stating that no further entries are
visited once the `N`-th match is emitted. -/
theorem claim_C1_cex :
    findEntries capOpts capTS ['/', 'r'] [] [] capTree
      = .ok ([['/', 'r', '/', 'm', '1'], ['/', 'r', '/', 'd', '/', 'm', '2']],
             [['/', 'r', '/', 'm', '1'], ['/', 'r', '/', 'd'],
              ['/', 'r', '/', 'd', '/', 'm', '2'], ['/', 'r', '/', 'd', '/', 'm', '3']]) ∧
    capOpts.max = (2 : Int) :=
  ⟨rfl, rfl⟩

/-- C1 (amended): for every readable tree with `K ≥ N` matching entries
and positive cap `N`, the call returns exactly `N` results; however,
entries may still be visited after the `N`-th match (see
`claim_C1_cex`), because each recursive call checks the cap against its
own local result count. -/
theorem claim_C1 (opt : Opts) (ts : Templates) (resPath : Str) (es : EntryList)
    (N : Nat) (hN : 0 < N) (hmax : opt.max = (N : Int))
    (hread : EntryList.readable es = true)
    (hK : N ≤ countEntries opt ts resPath es) :
    ∃ out : List Str × List Str,
      findDir opt ts resPath (.ok es) = .ok out ∧ out.1.length = N := by
  obtain ⟨out, hf, hl⟩ := capEntries opt ts N hN hmax es resPath [] []
    hread (by simpa using hN)
  refine ⟨out, by simpa [findDir] using hf, ?_⟩
  rw [hl]
  simp only [List.length_nil]
  omega

/-- C1 witness: the capped search on `capTree` with `N = 2 ≤ K = 3`. -/
theorem claim_C1_witness :
    ∃ out : List Str × List Str,
      findDir capOpts capTS ['/', 'r'] (.ok capTree) = .ok out ∧ out.1.length = 2 :=
  claim_C1 capOpts capTS ['/', 'r'] capTree 2 (by decide) rfl (by decide) (by decide)
